import Mathlib

/-!
# Verification of the mcp-ts documentation scraping / indexing core

Shallow embedding of the repository's core algorithms:

* `src/shared/query-helpers.ts` — filter-clause construction for the vector index;
* `src/services/scraper.service.ts` — link extraction (`parseUrls`,
  `extractDocumentationUrls`) and text cleanup (`cleanText`);
* `src/services/rag.service.ts` — `addUrlDocument` content/metadata assembly;
* `src/tools/bulk-add-urls.ts` — the per-candidate success/failure accumulation
  of the bulk-index handler.

JavaScript-specific behaviour is modelled explicitly: string truthiness (the
empty string is falsy), `||` fallbacks, and `Array.prototype.slice` truncation.
External collaborators (the WHATWG `URL` resolver, cheerio's DOM queries, the
HTTP client, the vector store) are modelled as oracle inputs: each embedded
function receives their outputs as explicit arguments, and the embedded code is
the control flow the repository source performs on those outputs.
-/

namespace Mcp

/-! ## JS string helpers -/

/-- ASCII case-folding of one character, as used by `String.prototype.toLowerCase`
on ASCII input (the repository only lower-cases ASCII identifiers). -/
def lowerChar (c : Char) : Char := Char.toLower c

/-- `s.toLowerCase()` restricted to ASCII case-folding. -/
def strLower (s : String) : String := ⟨s.data.map lowerChar⟩

/-- JS truthiness of a possibly-absent string: `undefined` and `""` are falsy. -/
def strTruthy : Option String → Bool
  | none => false
  | some s => s != ""

/-- JS `a || b` on possibly-absent strings: keep `a` when truthy, else `b`. -/
def jsOrStr (a b : Option String) : Option String :=
  if strTruthy a then a else b

/-- JS `x || undefined`: collapse a falsy string to an absent value. -/
def truthyOrNone (a : Option String) : Option String :=
  if strTruthy a then a else none

/-! ## `src/shared/query-helpers.ts` — filter clauses

`WhereCondition` in the source is a single-field equality object
(`{docType: …}`, `{libraryName: …}`, `{version: …}`, `{category: …}`); it is
embedded as a field/value pair.  `WhereClause` is the source's
`WhereCondition | { $and: WhereCondition[] }` union, embedded as a tagged
variant exactly as §9 of the design describes. -/

structure WhereCondition where
  field : String
  value : String
deriving DecidableEq, Repr

inductive WhereClause where
  | single : WhereCondition → WhereClause
  | and : List WhereCondition → WhereClause
deriving DecidableEq, Repr

/-- The list of equality conditions a clause imposes. -/
def WhereClause.conditions : WhereClause → List WhereCondition
  | .single c => [c]
  | .and l => l

/-- `DOC_TYPES.URL_DOCUMENT` from `src/shared/constants.ts`. -/
def URL_DOCUMENT : String := "url-document"

/-- `buildWhereClause` from `src/shared/query-helpers.ts`: prepend the base
condition, append every defined additional condition (every condition the
source ever passes is a one-key object, so the `Object.keys(...).length > 0`
guard is always true on present conditions), and collapse to the single base
condition when nothing was added. -/
def buildWhereClause (base : WhereCondition)
    (additional : List (Option WhereCondition)) : WhereClause :=
  let conditions := base :: additional.filterMap id
  if conditions.length = 1 then .single base else .and conditions

/-- `createDocTypeCondition`. -/
def createDocTypeCondition (docType : String) : WhereCondition :=
  ⟨"docType", docType⟩

/-- `createLibraryCondition`: lower-cases the value; falsy input (absent or
`""`) yields no condition. -/
def createLibraryCondition : Option String → Option WhereCondition
  | none => none
  | some s => if s = "" then none else some ⟨"libraryName", strLower s⟩

/-- `createVersionCondition`: the value is used verbatim (no lower-casing in
the source). -/
def createVersionCondition : Option String → Option WhereCondition
  | none => none
  | some s => if s = "" then none else some ⟨"version", s⟩

/-- `createCategoryCondition`: lower-cases the value. -/
def createCategoryCondition : Option String → Option WhereCondition
  | none => none
  | some s => if s = "" then none else some ⟨"category", strLower s⟩

/-- The options object accepted by `buildUrlDocumentWhere`. -/
structure UrlWhereOptions where
  libraryName : Option String := none
  version : Option String := none
  category : Option String := none

/-- `buildUrlDocumentWhere` from `src/shared/query-helpers.ts`. -/
def buildUrlDocumentWhere (options : UrlWhereOptions) : WhereClause :=
  buildWhereClause (createDocTypeCondition URL_DOCUMENT)
    [createLibraryCondition options.libraryName,
     createVersionCondition options.version,
     createCategoryCondition options.category]

/-! ### Structural lemmas about clause building -/

theorem filterMap_id_ne_nil_of_mem {α : Type} {l : List (Option α)} {c : α}
    (h : some c ∈ l) : l.filterMap id ≠ [] := by
  have : c ∈ l.filterMap id := List.mem_filterMap.mpr ⟨some c, h, rfl⟩
  exact List.ne_nil_of_mem this

theorem buildWhereClause_shape (base : WhereCondition)
    (additional : List (Option WhereCondition)) :
    buildWhereClause base additional = .single base ∨
      ∃ rest, rest ≠ [] ∧ buildWhereClause base additional = .and (base :: rest) := by
  unfold buildWhereClause
  cases h : additional.filterMap id with
  | nil => left; simp [h]
  | cons c cs =>
      right
      exact ⟨c :: cs, by simp, by simp [h]⟩

theorem buildWhereClause_of_filterMap_nil (base : WhereCondition)
    (additional : List (Option WhereCondition))
    (h : additional.filterMap id = []) :
    buildWhereClause base additional = .single base := by
  unfold buildWhereClause
  simp [h]

theorem buildWhereClause_of_mem (base : WhereCondition)
    (additional : List (Option WhereCondition)) {c : WhereCondition}
    (h : some c ∈ additional) :
    ∃ rest, rest ≠ [] ∧ buildWhereClause base additional = .and (base :: rest) := by
  rcases buildWhereClause_shape base additional with h1 | h2
  · exfalso
    have hne := filterMap_id_ne_nil_of_mem h
    unfold buildWhereClause at h1
    cases hfm : additional.filterMap id with
    | nil => exact hne hfm
    | cons d ds => simp [hfm] at h1
  · exact h2

theorem createLibraryCondition_eq_none {o : Option String}
    (h : strTruthy o = false) : createLibraryCondition o = none := by
  cases o with
  | none => rfl
  | some s =>
      simp [strTruthy, bne] at h
      simp [createLibraryCondition, h]

theorem createVersionCondition_eq_none {o : Option String}
    (h : strTruthy o = false) : createVersionCondition o = none := by
  cases o with
  | none => rfl
  | some s =>
      simp [strTruthy, bne] at h
      simp [createVersionCondition, h]

theorem createCategoryCondition_eq_none {o : Option String}
    (h : strTruthy o = false) : createCategoryCondition o = none := by
  cases o with
  | none => rfl
  | some s =>
      simp [strTruthy, bne] at h
      simp [createCategoryCondition, h]

theorem createLibraryCondition_eq_some {o : Option String}
    (h : strTruthy o = true) :
    ∃ s, o = some s ∧ createLibraryCondition o = some ⟨"libraryName", strLower s⟩ := by
  cases o with
  | none => simp [strTruthy] at h
  | some s =>
      simp [strTruthy, bne] at h
      exact ⟨s, rfl, by simp [createLibraryCondition, h]⟩

theorem createVersionCondition_eq_some {o : Option String}
    (h : strTruthy o = true) :
    ∃ s, o = some s ∧ createVersionCondition o = some ⟨"version", s⟩ := by
  cases o with
  | none => simp [strTruthy] at h
  | some s =>
      simp [strTruthy, bne] at h
      exact ⟨s, rfl, by simp [createVersionCondition, h]⟩

theorem createCategoryCondition_eq_some {o : Option String}
    (h : strTruthy o = true) :
    ∃ s, o = some s ∧ createCategoryCondition o = some ⟨"category", strLower s⟩ := by
  cases o with
  | none => simp [strTruthy] at h
  | some s =>
      simp [strTruthy, bne] at h
      exact ⟨s, rfl, by simp [createCategoryCondition, h]⟩

/-- C1: every clause produced by `buildUrlDocumentWhere` contains the docType
equality condition; with no truthy optional filter it is exactly the single
docType condition, and with at least one truthy optional filter it is an
`$and` conjunction whose first condition is the docType condition. -/
theorem buildUrlDocumentWhere_docType_leading (opts : UrlWhereOptions) :
    (createDocTypeCondition URL_DOCUMENT ∈ (buildUrlDocumentWhere opts).conditions) ∧
    (buildUrlDocumentWhere opts = .single (createDocTypeCondition URL_DOCUMENT) ∨
      ∃ rest, rest ≠ [] ∧
        buildUrlDocumentWhere opts = .and (createDocTypeCondition URL_DOCUMENT :: rest)) ∧
    ((strTruthy opts.libraryName = false ∧ strTruthy opts.version = false ∧
        strTruthy opts.category = false) →
      buildUrlDocumentWhere opts = .single (createDocTypeCondition URL_DOCUMENT)) ∧
    ((strTruthy opts.libraryName = true ∨ strTruthy opts.version = true ∨
        strTruthy opts.category = true) →
      ∃ rest, rest ≠ [] ∧
        buildUrlDocumentWhere opts = .and (createDocTypeCondition URL_DOCUMENT :: rest)) := by
  have hshape := buildWhereClause_shape (createDocTypeCondition URL_DOCUMENT)
    [createLibraryCondition opts.libraryName,
     createVersionCondition opts.version,
     createCategoryCondition opts.category]
  refine ⟨?_, ?_, ?_, ?_⟩
  · rcases hshape with h | ⟨rest, _, h⟩ <;>
      simp [buildUrlDocumentWhere, h, WhereClause.conditions]
  · exact hshape
  · rintro ⟨h1, h2, h3⟩
    apply buildWhereClause_of_filterMap_nil
    rw [createLibraryCondition_eq_none h1, createVersionCondition_eq_none h2,
      createCategoryCondition_eq_none h3]
    rfl
  · intro h
    rcases h with h | h | h
    · obtain ⟨s, _, hc⟩ := createLibraryCondition_eq_some h
      exact buildWhereClause_of_mem _ _
        (c := ⟨"libraryName", strLower s⟩) (by simp [hc])
    · obtain ⟨s, _, hc⟩ := createVersionCondition_eq_some h
      exact buildWhereClause_of_mem _ _
        (c := ⟨"version", s⟩) (by simp [hc])
    · obtain ⟨s, _, hc⟩ := createCategoryCondition_eq_some h
      exact buildWhereClause_of_mem _ _
        (c := ⟨"category", strLower s⟩) (by simp [hc])

/-- Witness for C1 at concrete inputs: `{libraryName: "react"}` yields an
`$and` clause headed by the docType condition, and no filters yield exactly
the docType condition. -/
theorem buildUrlDocumentWhere_docType_leading_witness :
    (∃ rest, rest ≠ [] ∧
        buildUrlDocumentWhere ⟨some "react", none, none⟩ =
          .and (createDocTypeCondition URL_DOCUMENT :: rest)) ∧
    buildUrlDocumentWhere ⟨none, none, none⟩ =
      .single (createDocTypeCondition URL_DOCUMENT) :=
  ⟨(buildUrlDocumentWhere_docType_leading ⟨some "react", none, none⟩).2.2.2
      (Or.inl (by decide)),
   (buildUrlDocumentWhere_docType_leading ⟨none, none, none⟩).2.2.1
      ⟨by decide, by decide, by decide⟩⟩

/-- C6 counterexample: the version value is placed in the clause verbatim
(`"V1"`), not lower-cased (`"v1"`), so the claim that all three of
libraryName/version/category are lower-cased is false. -/
theorem version_not_lowercased_counterexample :
    buildUrlDocumentWhere ⟨none, some "V1", none⟩ =
      .and [⟨"docType", "url-document"⟩, ⟨"version", "V1"⟩] ∧
    strLower "V1" = "v1" ∧ ("V1" : String) ≠ "v1" := by
  refine ⟨?_, ?_, ?_⟩ <;> decide

/-- C6 amended: `buildUrlDocumentWhere` lower-cases the supplied libraryName
and category values, but places the version value in the filter verbatim. -/
theorem buildUrlDocumentWhere_casing (l v c : String)
    (hl : l ≠ "") (hv : v ≠ "") (hc : c ≠ "") :
    buildUrlDocumentWhere ⟨some l, some v, some c⟩ =
      .and [createDocTypeCondition URL_DOCUMENT,
        ⟨"libraryName", strLower l⟩, ⟨"version", v⟩, ⟨"category", strLower c⟩] := by
  simp [buildUrlDocumentWhere, buildWhereClause, createLibraryCondition,
    createVersionCondition, createCategoryCondition, hl, hv, hc]

/-- Witness for the amended C6 at concrete mixed-case inputs. -/
theorem buildUrlDocumentWhere_casing_witness :
    buildUrlDocumentWhere ⟨some "React", some "V1", some "Docs"⟩ =
      .and [createDocTypeCondition URL_DOCUMENT,
        ⟨"libraryName", strLower "React"⟩, ⟨"version", "V1"⟩,
        ⟨"category", strLower "Docs"⟩] :=
  buildUrlDocumentWhere_casing "React" "V1" "Docs"
    (by decide) (by decide) (by decide)

/-! ## JS whitespace, trimming and substring helpers

`isWsChar` models the ASCII part of JS `\s` / `String.prototype.trim`
whitespace (the repository's inputs are ASCII-dominated; wider Unicode space
classes are outside the model). -/

def isWsChar (c : Char) : Bool :=
  c == ' ' || c == '\t' || c == '\n' || c == '\r' || c == '\x0b' || c == '\x0c'

/-- Drop leading whitespace. -/
def trimLeftChars (l : List Char) : List Char := l.dropWhile isWsChar

/-- Drop trailing whitespace. -/
def trimRightChars (l : List Char) : List Char :=
  (l.reverse.dropWhile isWsChar).reverse

/-- JS `String.prototype.trim`. -/
def trimChars (l : List Char) : List Char := trimRightChars (trimLeftChars l)

/-- JS `s.trim()` on strings. -/
def strTrim (s : String) : String := ⟨trimChars s.data⟩

/-- JS `s.substring(0, n)` (code-unit truncation; all strings handled here are
within the basic plane, where code units and characters coincide). -/
def takeCodeUnits (n : Nat) (s : String) : String := ⟨s.data.take n⟩

/-- Does `l` start with `pre`? -/
def startsWithChars : List Char → List Char → Bool
  | [], _ => true
  | _ :: _, [] => false
  | n :: ns, h :: hs => n == h && startsWithChars ns hs

/-- Does `l` contain `needle` as a contiguous run? -/
def hasSubChars (needle : List Char) : List Char → Bool
  | [] => startsWithChars needle []
  | h :: hs => startsWithChars needle (h :: hs) || hasSubChars needle hs

/-- Does `l` end with `suffix`? -/
def endsWithChars (suffix : List Char) (l : List Char) : Bool :=
  startsWithChars suffix.reverse l.reverse

/-- JS truthiness of a possibly-absent number: `undefined`, `0` and `NaN` are
falsy (`options?.maxUrls ? … : …`). -/
def jsTruthyNat : Option Nat → Bool
  | none => false
  | some n => n != 0

/-! ## `src/services/scraper.service.ts` — link extraction

`parseUrls` iterates cheerio matches of the configured selectors over the
fetched HTML.  The DOM and the WHATWG `URL` resolver are external
collaborators, so the embedding receives:

* `anchors` — the stream of anchor elements produced by
  `selectors.forEach(selector => $(selector).each(…))`, flattened in document
  pass order, each carrying exactly the attributes and adjacent text the
  source reads;
* `resolve` — the behaviour of `new URL(href, baseUrl)` for this page: `none`
  when the constructor throws, otherwise the serialized absolute URL together
  with its hostname;
* `baseHost` — `new URL(baseUrl).hostname`;
* `now` — `new Date().toISOString()`.
-/

structure Anchor where
  href : Option String
  text : String
  titleAttr : Option String := none
  ariaLabel : Option String := none
  dataDescription : Option String := none
  closestDataDescription : Option String := none
  nextText : String := ""

structure ExtractedUrl where
  url : String
  text : String
  title : Option String := none
  description : Option String := none
deriving DecidableEq, Repr

structure UrlExtractionResult where
  baseUrl : String
  extractedUrls : List ExtractedUrl
  totalFound : Nat
  scrapedAt : String
deriving DecidableEq, Repr

/-- The `description` chain of `parseUrls`:
`attr('data-description') || closest('[data-description]').attr('data-description')
|| next('p, .description, .summary').text().trim().substring(0, 200)`.
Only the adjacent-sibling fallback is truncated to 200. -/
def anchorDescription (a : Anchor) : Option String :=
  jsOrStr a.dataDescription
    (jsOrStr a.closestDataDescription
      (some (takeCodeUnits 200 (strTrim a.nextText))))

/-- The `ExtractedUrl` record `parseUrls` pushes for one accepted anchor. -/
def mkEntry (a : Anchor) (absoluteUrl : String) : ExtractedUrl :=
  { url := absoluteUrl,
    text := strTrim a.text,
    title := truthyOrNone (jsOrStr a.titleAttr a.ariaLabel),
    description := truthyOrNone (anchorDescription a) }

/-- The guard sequence the `parseUrls` loop body runs for one anchor against
the entries collected so far: skip missing/empty `href` (`if (!href) return`),
skip unresolvable URLs (the `catch` around `new URL`), apply the same-origin
and `filterPattern` guards, skip exact-string duplicates, and otherwise
produce the new entry. -/
def acceptAnchor (resolve : String → Option (String × String)) (baseHost : String)
    (filterPattern : Option (String → Bool)) (includeExternal : Bool)
    (acc : List ExtractedUrl) (a : Anchor) : Option ExtractedUrl :=
  match a.href with
  | none => none
  | some href =>
    if href = "" then none
    else
      match resolve href with
      | none => none
      | some (absoluteUrl, host) =>
        if !includeExternal && host != baseHost then none
        else if (match filterPattern with
            | some p => !p absoluteUrl
            | none => false) then none
        else if acc.any (fun e => e.url == absoluteUrl) then none
        else some (mkEntry a absoluteUrl)

/-- The accumulation loop of `parseUrls` over the anchor stream. -/
def collectUrls (resolve : String → Option (String × String)) (baseHost : String)
    (filterPattern : Option (String → Bool)) (includeExternal : Bool) :
    List Anchor → List ExtractedUrl → List ExtractedUrl
  | [], acc => acc
  | a :: rest, acc =>
    match acceptAnchor resolve baseHost filterPattern includeExternal acc a with
    | none => collectUrls resolve baseHost filterPattern includeExternal rest acc
    | some entry =>
      collectUrls resolve baseHost filterPattern includeExternal rest (acc ++ [entry])

/-- Options of `parseUrls` / `extractUrls`. -/
structure ParseOptions where
  filterPattern : Option (String → Bool) := none
  includeExternal : Bool := false
  maxUrls : Option Nat := none

/-- `parseUrls` from `src/services/scraper.service.ts`: collect, then apply
the `maxUrls` cap only when truthy (`options?.maxUrls ? slice : all`);
`totalFound` is the length of the pre-truncation collection. -/
def parseUrls (resolve : String → Option (String × String))
    (baseUrl baseHost : String) (options : ParseOptions)
    (anchors : List Anchor) (now : String) : UrlExtractionResult :=
  let extractedUrls :=
    collectUrls resolve baseHost options.filterPattern options.includeExternal anchors []
  let finalUrls :=
    if jsTruthyNat options.maxUrls then extractedUrls.take (options.maxUrls.getD 0)
    else extractedUrls
  { baseUrl := baseUrl,
    extractedUrls := finalUrls,
    totalFound := extractedUrls.length,
    scrapedAt := now }

/-- Default `docPathPattern` of `extractDocumentationUrls`: the regex
`/\/docs?\//i`, i.e. a case-insensitive `/doc/` or `/docs/` segment. -/
def defaultDocPathPattern (url : String) : Bool :=
  hasSubChars "/docs/".data (strLower url).data ||
    hasSubChars "/doc/".data (strLower url).data

/-- Default `excludePatterns` of `extractDocumentationUrls`, in source order:
binary/archive extensions, in-page anchors, API paths, changelog and blog
paths. -/
def defaultExcludePatterns : List (String → Bool) :=
  [fun url =>
      endsWithChars ".pdf".data (strLower url).data ||
      endsWithChars ".zip".data (strLower url).data ||
      endsWithChars ".tar.gz".data (strLower url).data ||
      endsWithChars ".exe".data (strLower url).data ||
      endsWithChars ".dmg".data (strLower url).data,
   fun url => hasSubChars "#".data url.data,
   fun url => hasSubChars "/api/".data (strLower url).data,
   fun url => hasSubChars "/changelog".data (strLower url).data,
   fun url => hasSubChars "/blog".data (strLower url).data]

/-- Caller options of `extractDocumentationUrls`; absent fields take the
source's defaults wholesale (`{...defaultOptions, ...options}`).  The
`includeCategories` default is never read afterwards and is omitted. -/
structure DocUrlOptions where
  docPathPattern : Option (String → Bool) := none
  excludePatterns : Option (List (String → Bool)) := none
  maxUrls : Option Nat := none

/-- `extractDocumentationUrls`: run `parseUrls` with the documentation
inclusion pattern, `includeExternal=false` and the (defaulted, so always
truthy) `maxUrls`, then apply the exclusion patterns as a second pass over the
already-truncated list, and report the filtered list's length as
`totalFound`. -/
def extractDocumentationUrls (resolve : String → Option (String × String))
    (baseUrl baseHost : String) (options : DocUrlOptions)
    (anchors : List Anchor) (now : String) : UrlExtractionResult :=
  let docPathPattern := options.docPathPattern.getD defaultDocPathPattern
  let excludePatterns := options.excludePatterns.getD defaultExcludePatterns
  let maxUrls := options.maxUrls.getD 500
  let result := parseUrls resolve baseUrl baseHost
    ⟨some docPathPattern, false, some maxUrls⟩ anchors now
  let filteredUrls := result.extractedUrls.filter
    (fun e => !(excludePatterns.any (fun p => p e.url)))
  { result with extractedUrls := filteredUrls, totalFound := filteredUrls.length }

/-! ### Link-extraction theorems -/

/-- Five qualifying anchors under the default documentation patterns: every
URL contains `/docs/`, none is excluded, and all resolve on the base host. -/
def fiveDocAnchors : List Anchor :=
  [⟨some "https://example.com/docs/p1", "", none, none, none, none, ""⟩,
   ⟨some "https://example.com/docs/p2", "", none, none, none, none, ""⟩,
   ⟨some "https://example.com/docs/p3", "", none, none, none, none, ""⟩,
   ⟨some "https://example.com/docs/p4", "", none, none, none, none, ""⟩,
   ⟨some "https://example.com/docs/p5", "", none, none, none, none, ""⟩]

/-- C3 counterexample: 5 qualifying anchors with `maxUrls = 3` give
`extractedUrls.length = 3` but `totalFound = 3` as well, not the claimed
pre-truncation count 5 — `extractDocumentationUrls` truncates inside
`parseUrls` before the exclusion pass and then reports the post-truncation
filtered length. -/
theorem extractDocumentationUrls_totalFound_counterexample :
    (extractDocumentationUrls (fun h => some (h, "example.com"))
      "https://example.com/docs" "example.com" ⟨none, none, some 3⟩
      fiveDocAnchors "t0").extractedUrls.length = 3 ∧
    (extractDocumentationUrls (fun h => some (h, "example.com"))
      "https://example.com/docs" "example.com" ⟨none, none, some 3⟩
      fiveDocAnchors "t0").totalFound = 3 ∧
    ¬ (extractDocumentationUrls (fun h => some (h, "example.com"))
      "https://example.com/docs" "example.com" ⟨none, none, some 3⟩
      fiveDocAnchors "t0").totalFound = 5 := by
  refine ⟨?_, ?_, ?_⟩ <;> decide

/-- C3 amended: in `parseUrls` (hence `extractUrls`) `totalFound` is the
pre-truncation count of qualifying URLs and `extractedUrls` is that list
truncated to at most `maxUrls`; in `extractDocumentationUrls`, truncation
happens before the exclusion pass and `totalFound` equals the length of the
returned (post-truncation, post-exclusion) list. -/
theorem parseUrls_totalFound_pre_truncation
    (resolve : String → Option (String × String)) (baseUrl baseHost : String)
    (options : ParseOptions) (docOptions : DocUrlOptions)
    (anchors : List Anchor) (now : String) :
    (parseUrls resolve baseUrl baseHost options anchors now).totalFound =
      (collectUrls resolve baseHost options.filterPattern options.includeExternal
        anchors []).length ∧
    (∀ m, options.maxUrls = some m → m ≠ 0 →
      (parseUrls resolve baseUrl baseHost options anchors now).extractedUrls =
        (collectUrls resolve baseHost options.filterPattern options.includeExternal
          anchors []).take m ∧
      (parseUrls resolve baseUrl baseHost options anchors now).extractedUrls.length ≤ m) ∧
    (extractDocumentationUrls resolve baseUrl baseHost docOptions anchors now).totalFound =
      (extractDocumentationUrls resolve baseUrl baseHost docOptions anchors now).extractedUrls.length := by
  refine ⟨rfl, ?_, rfl⟩
  intro m hm hm0
  have htm : jsTruthyNat (some m) = true := by
    simp [jsTruthyNat, bne_iff_ne, hm0]
  have h2 : (parseUrls resolve baseUrl baseHost options anchors now).extractedUrls =
      (collectUrls resolve baseHost options.filterPattern options.includeExternal
        anchors []).take m := by
    simp [parseUrls, hm, htm]
  refine ⟨h2, ?_⟩
  rw [h2]
  exact List.length_take_le m _

/-- Witness for the amended C3 at the concrete five-anchor input with
`maxUrls = 3`. -/
theorem parseUrls_totalFound_pre_truncation_witness :
    (parseUrls (fun h => some (h, "example.com")) "https://example.com/docs"
      "example.com" ⟨some defaultDocPathPattern, false, some 3⟩
      fiveDocAnchors "t0").extractedUrls =
      (collectUrls (fun h => some (h, "example.com")) "example.com"
        (some defaultDocPathPattern) false fiveDocAnchors []).take 3 ∧
    (parseUrls (fun h => some (h, "example.com")) "https://example.com/docs"
      "example.com" ⟨some defaultDocPathPattern, false, some 3⟩
      fiveDocAnchors "t0").extractedUrls.length ≤ 3 :=
  (parseUrls_totalFound_pre_truncation (fun h => some (h, "example.com"))
    "https://example.com/docs" "example.com"
    ⟨some defaultDocPathPattern, false, some 3⟩ ⟨none, none, some 3⟩
    fiveDocAnchors "t0").2.1 3 rfl (by decide)

/-- An anchor accepted by the guard sequence yields an entry built by
`mkEntry` whose URL differs from every already-collected entry's URL. -/
theorem acceptAnchor_some {resolve : String → Option (String × String)}
    {baseHost : String} {filterPattern : Option (String → Bool)}
    {includeExternal : Bool} {acc : List ExtractedUrl} {a : Anchor}
    {entry : ExtractedUrl}
    (h : acceptAnchor resolve baseHost filterPattern includeExternal acc a =
      some entry) :
    (∃ u, entry = mkEntry a u) ∧ ∀ x ∈ acc, x.url ≠ entry.url := by
  unfold acceptAnchor at h
  split at h
  · exact Option.noConfusion h
  next href hhref =>
    by_cases hemp : href = ""
    · rw [if_pos hemp] at h; exact Option.noConfusion h
    · rw [if_neg hemp] at h
      split at h
      · exact Option.noConfusion h
      next absoluteUrl host heq =>
        split_ifs at h with h1 h2 h3
        have hentry : entry = mkEntry a absoluteUrl := (Option.some.inj h).symm
        refine ⟨⟨absoluteUrl, hentry⟩, ?_⟩
        intro x hx hxu
        apply h3
        exact List.any_eq_true.mpr ⟨x, hx, beq_iff_eq.mpr
          (hxu.trans ((congrArg ExtractedUrl.url hentry).trans rfl))⟩

/-- Every entry the collection loop produces is either from the incoming
accumulator or built by `mkEntry` from one of the anchors. -/
theorem collectUrls_mem (resolve : String → Option (String × String))
    (baseHost : String) (filterPattern : Option (String → Bool))
    (includeExternal : Bool) :
    ∀ (anchors : List Anchor) (acc : List ExtractedUrl) (e : ExtractedUrl),
      e ∈ collectUrls resolve baseHost filterPattern includeExternal anchors acc →
      e ∈ acc ∨ ∃ a ∈ anchors, ∃ u, e = mkEntry a u := by
  intro anchors
  induction anchors with
  | nil => intro acc e he; exact Or.inl he
  | cons a rest ih =>
      intro acc e he
      rw [collectUrls] at he
      cases hacc : acceptAnchor resolve baseHost filterPattern includeExternal acc a with
      | none =>
          rw [hacc] at he
          rcases ih acc e he with h | ⟨b, hb, u, hu⟩
          · exact Or.inl h
          · exact Or.inr ⟨b, List.mem_cons_of_mem a hb, u, hu⟩
      | some entry =>
          rw [hacc] at he
          obtain ⟨⟨u, hu⟩, -⟩ := acceptAnchor_some hacc
          rcases ih (acc ++ [entry]) e he with h | ⟨b, hb, v, hv⟩
          · rcases List.mem_append.mp h with h | h
            · exact Or.inl h
            · have heq : e = entry := by simpa using h
              exact Or.inr ⟨a, List.mem_cons_self a rest, u, heq ▸ hu⟩
          · exact Or.inr ⟨b, List.mem_cons_of_mem a hb, v, hv⟩

/-- The collection loop keeps entry URLs pairwise distinct: a candidate whose
absolute URL is already collected is skipped. -/
theorem collectUrls_pairwise (resolve : String → Option (String × String))
    (baseHost : String) (filterPattern : Option (String → Bool))
    (includeExternal : Bool) :
    ∀ (anchors : List Anchor) (acc : List ExtractedUrl),
      acc.Pairwise (fun e1 e2 => e1.url ≠ e2.url) →
      (collectUrls resolve baseHost filterPattern includeExternal
        anchors acc).Pairwise (fun e1 e2 => e1.url ≠ e2.url) := by
  intro anchors
  induction anchors with
  | nil => intro acc hacc; exact hacc
  | cons a rest ih =>
      intro acc hacc
      rw [collectUrls]
      cases hacc' : acceptAnchor resolve baseHost filterPattern includeExternal acc a with
      | none => exact ih acc hacc
      | some entry =>
          show List.Pairwise _ (collectUrls resolve baseHost filterPattern
            includeExternal rest (acc ++ [entry]))
          apply ih
          rw [List.pairwise_append]
          refine ⟨hacc, List.pairwise_singleton _ _, ?_⟩
          intro x hx y hy
          rw [List.mem_singleton] at hy
          subst hy
          exact (acceptAnchor_some hacc').2 x hx

/-- C5: within one extraction call, across all configured selectors, the
returned `extractedUrls` never contains two entries with the same resolved
absolute URL string. -/
theorem parseUrls_urls_distinct (resolve : String → Option (String × String))
    (baseUrl baseHost : String) (options : ParseOptions)
    (anchors : List Anchor) (now : String) :
    (parseUrls resolve baseUrl baseHost options anchors now).extractedUrls.Pairwise
      (fun e1 e2 => e1.url ≠ e2.url) := by
  have hcol := collectUrls_pairwise resolve baseHost options.filterPattern
    options.includeExternal anchors [] (List.Pairwise.nil)
  unfold parseUrls
  split_ifs with h
  · exact hcol.sublist (List.take_sublist _ _)
  · exact hcol

set_option maxRecDepth 8192 in
/-- C5 at a concrete input: two anchors resolving to the identical absolute
URL produce exactly one entry for that URL. -/
theorem parseUrls_urls_distinct_concrete :
    (parseUrls (fun _ => some ("https://example.com/x", "example.com"))
      "https://example.com/" "example.com" ⟨none, false, none⟩
      [⟨some "/x", "first", none, none, none, none, ""⟩,
       ⟨some "/x", "second", none, none, none, none, ""⟩]
      "t0").extractedUrls.map (fun e => e.url) = ["https://example.com/x"] := by
  decide

/-- The description of an entry built from an anchor whose data attributes are
falsy comes from the adjacent-sibling text and is truncated to 200. -/
theorem mkEntry_description_le (a : Anchor) (u : String)
    (h1 : strTruthy a.dataDescription = false)
    (h2 : strTruthy a.closestDataDescription = false) :
    ∀ d, (mkEntry a u).description = some d → d.length ≤ 200 := by
  intro d hd
  have hAD : anchorDescription a = some (takeCodeUnits 200 (strTrim a.nextText)) := by
    unfold anchorDescription jsOrStr
    rw [h1, h2]
    simp
  have hd2 : truthyOrNone (some (takeCodeUnits 200 (strTrim a.nextText))) = some d := by
    rw [← hAD]
    exact hd
  unfold truthyOrNone at hd2
  split at hd2
  · have hd' : d = takeCodeUnits 200 (strTrim a.nextText) := (Option.some.inj hd2).symm
    rw [hd']
    exact List.length_take_le 200 _
  · exact absurd hd2 (by simp)

/-- C7 amended: when the explicit and ancestor `data-description` attributes
are all falsy (so every description is best-effort sibling text), each
present description has at most 200 characters; descriptions taken verbatim
from data attributes are not truncated (see the counterexample). -/
theorem parseUrls_description_le_200 (resolve : String → Option (String × String))
    (baseUrl baseHost : String) (options : ParseOptions)
    (anchors : List Anchor) (now : String)
    (h : ∀ a ∈ anchors, strTruthy a.dataDescription = false ∧
      strTruthy a.closestDataDescription = false) :
    ∀ e ∈ (parseUrls resolve baseUrl baseHost options anchors now).extractedUrls,
      ∀ d, e.description = some d → d.length ≤ 200 := by
  intro e he d hd
  have hcol : e ∈ collectUrls resolve baseHost options.filterPattern
      options.includeExternal anchors [] := by
    unfold parseUrls at he
    split_ifs at he with hc
    · exact (List.take_sublist _ _).mem he
    · exact he
  rcases collectUrls_mem resolve baseHost options.filterPattern
      options.includeExternal anchors [] e hcol with h0 | ⟨a, ha, u, hu⟩
  · simp at h0
  · obtain ⟨h1, h2⟩ := h a ha
    exact mkEntry_description_le a u h1 h2 d (hu ▸ hd)

/-- A concrete anchor with 250 characters of adjacent-sibling text and no
data attributes. -/
def w7Anchor : Anchor :=
  { href := some "https://example.com/a", text := "t",
    nextText := ⟨List.replicate 250 'y'⟩ }

/-- The description `parseUrls` derives for `w7Anchor`. -/
def w7Desc : String := takeCodeUnits 200 (strTrim w7Anchor.nextText)

set_option maxRecDepth 8192 in
/-- Witness for the amended C7: the entry extracted for `w7Anchor` carries a
description of at most 200 characters. -/
theorem parseUrls_description_le_200_witness : w7Desc.length ≤ 200 :=
  parseUrls_description_le_200 (fun h => some (h, "example.com"))
    "https://example.com/" "example.com" ⟨none, false, none⟩ [w7Anchor] "t0"
    (by decide) (mkEntry w7Anchor "https://example.com/a") (by decide)
    w7Desc (by decide)

/-- A 201-character data attribute value. -/
def longDesc : String := ⟨List.replicate 201 'x'⟩

set_option maxRecDepth 8192 in
/-- C7 counterexample: a description taken from the explicit
`data-description` attribute is stored verbatim, so an entry can carry a
description of 201 characters. -/
theorem parseUrls_description_over_200_counterexample :
    (parseUrls (fun h => some (h, "example.com")) "https://example.com/"
      "example.com" ⟨none, false, none⟩
      [⟨some "https://example.com/a", "t", none, none, some longDesc, none, ""⟩]
      "t0").extractedUrls.map (fun e => e.description) = [some longDesc] ∧
    200 < longDesc.length := by
  constructor
  · decide
  · have hlen : longDesc.length = 201 := by
      show (List.replicate 201 'x').length = 201
      rw [List.length_replicate]
    rw [hlen]
    norm_num

/-- C10: a `maxUrls` of `0` is falsy, so no truncation is applied — the result
is identical to omitting the cap, and every qualifying URL is returned. -/
theorem parseUrls_maxUrls_zero (resolve : String → Option (String × String))
    (baseUrl baseHost : String) (filterPattern : Option (String → Bool))
    (includeExternal : Bool) (anchors : List Anchor) (now : String) :
    parseUrls resolve baseUrl baseHost ⟨filterPattern, includeExternal, some 0⟩
        anchors now =
      parseUrls resolve baseUrl baseHost ⟨filterPattern, includeExternal, none⟩
        anchors now ∧
    (parseUrls resolve baseUrl baseHost ⟨filterPattern, includeExternal, some 0⟩
        anchors now).extractedUrls =
      collectUrls resolve baseHost filterPattern includeExternal anchors [] := by
  constructor <;> rfl

/-! ## `src/services/rag.service.ts` — `addUrlDocument`

`addUrlDocument` builds the document content and the enriched metadata and
performs one vector-index write.  The scrape attempt
(`this.scraperService.scrapeUrl`), the generated UUID and the current
timestamp are external effects and enter as arguments; the embedded function
returns the record passed to `chroma.addItems`. -/

/-- The part of a `scrapeUrl` result `addUrlDocument` reads (only `.content`
of the full `ScrapedContent` is used). -/
structure ScrapedPage where
  content : String
deriving DecidableEq, Repr

/-- `UrlDocumentInput` from `src/shared/types.ts`. -/
structure UrlDocumentInput where
  url : String
  title : String
  libraryName : String
  version : String
  category : String
  keywords : List String
  description : Option String := none
  «section» : Option String := none
  lastUpdated : Option String := none

/-- `formatKeywordsForStorage` from `src/shared/query-helpers.ts`. -/
def formatKeywordsForStorage (keywords : List String) : String :=
  String.intercalate ", " keywords

/-- JS `keywords.join(' ')`. -/
def joinSpace (keywords : List String) : String :=
  String.intercalate " " keywords

/-- `generateSearchableText` from `src/shared/query-helpers.ts`. -/
def generateSearchableText (metadata : UrlDocumentInput) : String :=
  strLower (metadata.libraryName ++ " " ++ metadata.version ++ " " ++
    metadata.category ++ " " ++ joinSpace metadata.keywords ++ " " ++ metadata.title)

/-- `StandardUrlMetadata` from `src/shared/types.ts` (keywords already
formatted to the comma-separated storage form). -/
structure StandardUrlMetadata where
  url : String
  title : String
  libraryName : String
  version : String
  category : String
  keywords : String
  description : String
  «section» : String
  lastUpdated : String
  docType : String
  contentExtracted : Bool
  addedAt : String
  searchableText : String

/-- The record `addUrlDocument` hands to `chroma.addItems`. -/
structure AddedRecord where
  id : String
  content : String
  metadata : StandardUrlMetadata

/-- `addUrlDocument` from `src/services/rag.service.ts`: start from the
metadata-only content `title\n(description || '')\nkeywords.join(' ')`; when
`extractContent` is requested, try the scrape and on success replace the
content with `title\nscraped.content\nkeywords.join(' ')`, on failure keep
the metadata-only content (the caught `ContentExtractionFallback`); the
enriched metadata records `contentExtracted := extractContent` in every
branch. -/
def addUrlDocument (scrape : Except String ScrapedPage) (docId now : String)
    (metadata : UrlDocumentInput) (extractContent : Bool) : AddedRecord :=
  let metadataOnly := metadata.title ++ "\n" ++ (metadata.description.getD "") ++
    "\n" ++ joinSpace metadata.keywords
  let documentContent :=
    if extractContent then
      match scrape with
      | .ok scrapedData =>
          metadata.title ++ "\n" ++ scrapedData.content ++ "\n" ++
            joinSpace metadata.keywords
      | .error _ => metadataOnly
    else metadataOnly
  { id := docId,
    content := documentContent,
    metadata :=
      { url := metadata.url,
        title := metadata.title,
        libraryName := metadata.libraryName,
        version := metadata.version,
        category := metadata.category,
        keywords := formatKeywordsForStorage metadata.keywords,
        description := metadata.description.getD "",
        «section» := metadata.«section».getD "",
        lastUpdated := metadata.lastUpdated.getD "",
        docType := URL_DOCUMENT,
        contentExtracted := extractContent,
        addedAt := now,
        searchableText := generateSearchableText metadata } }

/-- C9: the `contentExtracted` metadata field always equals the caller's
`extractContent` argument — also when the scrape fails and the metadata-only
fallback content is written; it records whether extraction was requested, not
whether it succeeded. -/
theorem addUrlDocument_contentExtracted (scrape : Except String ScrapedPage)
    (docId now : String) (metadata : UrlDocumentInput) (extractContent : Bool) :
    (addUrlDocument scrape docId now metadata extractContent).metadata.contentExtracted =
      extractContent := rfl

/-- A concrete input for the C8 counterexample. -/
def c8Metadata : UrlDocumentInput :=
  { url := "https://example.com/docs",
    title := "Title",
    libraryName := "lib",
    version := "1.0",
    category := "docs",
    keywords := ["k1", "k2"],
    description := some "Desc" }

/-- C8 counterexample: with a successful scrape of content `"BODY"`, the
written content is `"Title\nBODY\nk1 k2"` — title, scraped content and
space-joined keywords — not the scraped page content alone. -/
theorem addUrlDocument_content_counterexample :
    (addUrlDocument (.ok ⟨"BODY"⟩) "id0" "t0" c8Metadata true).content =
      "Title\nBODY\nk1 k2" ∧
    (addUrlDocument (.ok ⟨"BODY"⟩) "id0" "t0" c8Metadata true).content ≠ "BODY" := by
  constructor <;> decide

/-- C8 amended: the written content is the title, the scraped content and the
space-joined keywords joined by newlines when extraction is requested and
succeeds; otherwise (extraction not requested, or the scrape fails) it is the
title, the `description || ''` fallback and the space-joined keywords joined
by newlines. -/
theorem addUrlDocument_content_spec (docId now : String)
    (metadata : UrlDocumentInput) (sc : ScrapedPage) (err : String)
    (scrape : Except String ScrapedPage) :
    (addUrlDocument (.ok sc) docId now metadata true).content =
      metadata.title ++ "\n" ++ sc.content ++ "\n" ++ joinSpace metadata.keywords ∧
    (addUrlDocument (.error err) docId now metadata true).content =
      metadata.title ++ "\n" ++ (metadata.description.getD "") ++ "\n" ++
        joinSpace metadata.keywords ∧
    (addUrlDocument scrape docId now metadata false).content =
      metadata.title ++ "\n" ++ (metadata.description.getD "") ++ "\n" ++
        joinSpace metadata.keywords :=
  ⟨rfl, rfl, rfl⟩

/-! ## `src/tools/bulk-add-urls.ts` — the bulk-index candidate loop

The handler iterates the discovered candidates strictly sequentially; for each
candidate it derives metadata, calls `ragService.addUrlDocument` and sleeps
briefly.  That per-candidate body either completes (returning a document id)
or throws, and the surrounding `try`/`catch` records the candidate under
`successful` or `failed` accordingly and always continues.  The embedding
abstracts the per-candidate body as `run : String → Except String String`
(url to document id or error message, `error.message` of the thrown error). -/

structure BulkResults where
  successful : List String
  failed : List (String × String)
deriving DecidableEq, Repr

/-- The `for (const extractedUrl of urlsToProcess)` loop of the handler. -/
def processCandidates (run : String → Except String String) :
    List String → BulkResults → BulkResults
  | [], results => results
  | url :: rest, results =>
    match run url with
    | .ok _ =>
        processCandidates run rest
          { results with successful := results.successful ++ [url] }
    | .error e =>
        processCandidates run rest
          { results with failed := results.failed ++ [(url, e)] }

/-- The aggregated results of one bulk-index batch. -/
def bulkIndexResults (run : String → Except String String)
    (candidates : List String) : BulkResults :=
  processCandidates run candidates ⟨[], []⟩

/-- Does the per-candidate body succeed on this url? -/
def runOk (run : String → Except String String) (url : String) : Bool :=
  match run url with
  | .ok _ => true
  | .error _ => false

/-- The error message the per-candidate body throws on this url. -/
def runErr (run : String → Except String String) (url : String) : String :=
  match run url with
  | .ok _ => ""
  | .error e => e

/-- The loop appends successes and failures in candidate order on top of any
incoming accumulator. -/
theorem processCandidates_spec (run : String → Except String String) :
    ∀ (candidates : List String) (results : BulkResults),
      processCandidates run candidates results =
        ⟨results.successful ++ candidates.filter (fun u => runOk run u),
         results.failed ++ (candidates.filter (fun u => !(runOk run u))).map
           (fun u => (u, runErr run u))⟩ := by
  intro candidates
  induction candidates with
  | nil => intro results; simp [processCandidates]
  | cons u rest ih =>
      intro results
      rw [processCandidates]
      cases hr : run u with
      | ok v =>
          have hok : runOk run u = true := by simp [runOk, hr]
          simp [ih, hok, List.filter_cons, List.append_assoc]
      | error e =>
          have hok : runOk run u = false := by simp [runOk, hr]
          have herr : runErr run u = e := by simp [runErr, hr]
          simp [ih, hok, herr, List.filter_cons, List.append_assoc]

/-- C2: no single candidate failure aborts the batch — every candidate is
recorded, successes under `successful` and throwing candidates under
`failed` as `(url, error message)`, both in discovery order; in particular a
batch of 3 candidates whose 2nd throws yields 2 successes and 1 failure
naming the 2nd URL. -/
theorem bulkIndex_partial_failure (run : String → Except String String)
    (candidates : List String) :
    (bulkIndexResults run candidates).successful =
      candidates.filter (fun u => runOk run u) ∧
    (bulkIndexResults run candidates).failed =
      (candidates.filter (fun u => !(runOk run u))).map
        (fun u => (u, runErr run u)) := by
  rw [bulkIndexResults, processCandidates_spec]
  simp

/-! ## `src/services/scraper.service.ts` — `cleanText`

`cleanText` is a chain of `String.prototype.replace` calls:

1. `/\s+/g → ' '` — collapse whitespace runs to a single space;
2. ten boilerplate-phrase removals (`/Next\s*→/gi`, `/←\s*Previous/gi`,
   `/Edit this page on GitHub/gi`, `/Share on Twitter/gi`,
   `/Share on Facebook/gi`, `/Copy link/gi`, `/Copyright\s*©.*$/gim`,
   `/All rights reserved\.?/gi`, `/Terms of Service/gi`,
   `/Privacy Policy/gi`), each replaced by the empty string;
3. `/\.{3,}/g → '...'`, `/\?{2,}/g → '?'`, `/!{2,}/g → '!'`;
4. `.trim()`.

Whitespace collapsing and the punctuation collapses are run-length limiters
and share one generic machine below.  The phrase patterns are matched by a
small pattern interpreter with exactly the atoms those regexes use:
case-insensitive literals, `\s*`, `\.?` and `.*$` (which, under `/m`,
consumes up to the next newline). -/

/-- Run-length limiting pass: within each maximal run of characters in class
`p`, keep (canonicalized) the first `cap` characters and drop the rest;
characters outside the class reset the run.  `runGo p canon 1 0` with
`canon _ = ' '` is `/\s+/g → ' '`; with `canon = id`, `cap = 3` on `.` it is
`/\.{3,}/g → '...'`, and `cap = 1` on `?`/`!` are the `{2,}` collapses. -/
def runGo (p : Char → Bool) (canon : Char → Char) (cap : Nat) :
    Nat → List Char → List Char
  | _, [] => []
  | k, c :: s =>
    if p c then
      (if k < cap then canon c :: runGo p canon cap (k + 1) s
       else runGo p canon cap k s)
    else c :: runGo p canon cap 0 s

/-- Normal form for `runGo`: every class character is canonical and no run
exceeds `cap`, tracked by the run counter `k`. -/
def runNorm (p : Char → Bool) (canon : Char → Char) (cap : Nat) :
    Nat → List Char → Bool
  | _, [] => true
  | k, c :: s =>
    if p c then decide (k < cap) && (canon c == c) && runNorm p canon cap (k + 1) s
    else runNorm p canon cap 0 s

/-- `.` class. -/
def isDotChar (c : Char) : Bool := c == '.'

/-- `?` class. -/
def isQChar (c : Char) : Bool := c == '?'

/-- `!` class. -/
def isBangChar (c : Char) : Bool := c == '!'

/-- `/\s+/g → ' '`. -/
def collapseWs (l : List Char) : List Char := runGo isWsChar (fun _ => ' ') 1 0 l

/-- `/\.{3,}/g → '...'`. -/
def dotsPass (l : List Char) : List Char := runGo isDotChar id 3 0 l

/-- `/\?{2,}/g → '?'`. -/
def qPass (l : List Char) : List Char := runGo isQChar id 1 0 l

/-- `/!{2,}/g → '!'`. -/
def bangPass (l : List Char) : List Char := runGo isBangChar id 1 0 l

/-- Pattern atoms of the boilerplate regexes. -/
inductive PatAtom where
  | litCI : Char → PatAtom
  | wsStar : PatAtom
  | restOfLine : PatAtom
  | optDot : PatAtom

/-- Match a sequence of atoms at the head of `s`; `some rest` is the
un-consumed remainder.  `wsStar` and `restOfLine` match greedily, which is
exact for the source's patterns (each is followed by a literal that its class
cannot contain, or ends the pattern). -/
def matchAtoms : List PatAtom → List Char → Option (List Char)
  | [], s => some s
  | .litCI _ :: _, [] => none
  | .litCI c :: ps, d :: s =>
      if lowerChar d = lowerChar c then matchAtoms ps s else none
  | .wsStar :: ps, s => matchAtoms ps (s.dropWhile isWsChar)
  | .restOfLine :: ps, s => matchAtoms ps (s.dropWhile (fun c => !(c == '\n')))
  | .optDot :: ps, [] => matchAtoms ps []
  | .optDot :: ps, d :: s =>
      if d = '.' then matchAtoms ps s else matchAtoms ps (d :: s)

/-- One global-replace-by-empty scan for a pattern `c0 :: ps` (the first atom
is always a case-insensitive literal): try the pattern at every position left
to right; on a match, drop it and continue after it — exactly
`replace(/pat/gi, '')`.  `fuel` only bounds the recursion and is always at
least the list length, so the exhaustion case is never reached. -/
def scrubGo (c0 : Char) (ps : List PatAtom) : Nat → List Char → List Char
  | _, [] => []
  | 0, s => s
  | fuel + 1, c :: s =>
    if lowerChar c = lowerChar c0 then
      match matchAtoms ps s with
      | some rest => scrubGo c0 ps fuel rest
      | none => c :: scrubGo c0 ps fuel s
    else c :: scrubGo c0 ps fuel s

/-- `replace(/c0 ps/gi, '')`. -/
def scrub (c0 : Char) (ps : List PatAtom) (s : List Char) : List Char :=
  scrubGo c0 ps s.length s

/-- The ten phrase removals of `cleanText`, in source order.  The `.*$` of
the copyright pattern is interpreted under `/m` (stop before a newline),
which is exact on every input. -/
def removePhrases (s : List Char) : List Char :=
  let s1 := scrub 'N'
    ("ext".data.map PatAtom.litCI ++ [PatAtom.wsStar, PatAtom.litCI '→']) s
  let s2 := scrub '←'
    ([PatAtom.wsStar] ++ "Previous".data.map PatAtom.litCI) s1
  let s3 := scrub 'E' ("dit this page on GitHub".data.map PatAtom.litCI) s2
  let s4 := scrub 'S' ("hare on Twitter".data.map PatAtom.litCI) s3
  let s5 := scrub 'S' ("hare on Facebook".data.map PatAtom.litCI) s4
  let s6 := scrub 'C' ("opy link".data.map PatAtom.litCI) s5
  let s7 := scrub 'C'
    ("opyright".data.map PatAtom.litCI ++
      [PatAtom.wsStar, PatAtom.litCI '©', PatAtom.restOfLine]) s6
  let s8 := scrub 'A'
    ("ll rights reserved".data.map PatAtom.litCI ++ [PatAtom.optDot]) s7
  let s9 := scrub 'T' ("erms of Service".data.map PatAtom.litCI) s8
  scrub 'P' ("rivacy Policy".data.map PatAtom.litCI) s9

/-- `cleanText` from `src/services/scraper.service.ts`: whitespace collapse,
phrase removal, punctuation collapse, trim — in source order. -/
def cleanText (s : String) : String :=
  ⟨trimChars (bangPass (qPass (dotsPass (removePhrases (collapseWs s.data)))))⟩

/-! ### Run-length machine lemmas -/

/-- A normalized list is a fixed point of its machine. -/
theorem runGo_eq_self (p : Char → Bool) (canon : Char → Char) (cap : Nat) :
    ∀ (s : List Char) (k : Nat), runNorm p canon cap k s = true →
      runGo p canon cap k s = s := by
  intro s
  induction s with
  | nil => intro k _; rfl
  | cons c s ih =>
      intro k h
      rw [runNorm] at h
      rw [runGo]
      by_cases hp : p c = true
      · rw [if_pos hp] at h ⊢
        simp only [Bool.and_eq_true, decide_eq_true_eq, beq_iff_eq] at h
        obtain ⟨⟨hk, hc⟩, hs⟩ := h
        rw [if_pos hk, hc, ih (k + 1) hs]
      · rw [if_neg hp] at h ⊢
        rw [ih 0 h]

/-- The machine's output is normalized (for a class-and-idempotence-respecting
canonicalization). -/
theorem runNorm_runGo (p : Char → Bool) (canon : Char → Char) (cap : Nat)
    (hpc : ∀ c, p c = true → p (canon c) = true)
    (hcc : ∀ c, p c = true → canon (canon c) = canon c) :
    ∀ (s : List Char) (k : Nat),
      runNorm p canon cap k (runGo p canon cap k s) = true := by
  intro s
  induction s with
  | nil => intro k; rfl
  | cons c s ih =>
      intro k
      rw [runGo]
      by_cases hp : p c = true
      · rw [if_pos hp]
        by_cases hk : k < cap
        · rw [if_pos hk, runNorm, if_pos (hpc c hp)]
          simp [hk, hcc c hp, ih (k + 1)]
        · rw [if_neg hk]
          exact ih k
      · rw [if_neg hp, runNorm, if_neg hp]
        exact ih 0

/-- A smaller run counter imposes a weaker constraint. -/
theorem runNorm_mono (p : Char → Bool) (canon : Char → Char) (cap : Nat) :
    ∀ (s : List Char) (k k' : Nat), k ≤ k' →
      runNorm p canon cap k' s = true → runNorm p canon cap k s = true := by
  intro s
  induction s with
  | nil => intro k k' _ _; rfl
  | cons c s ih =>
      intro k k' hkk h
      rw [runNorm] at h ⊢
      by_cases hp : p c = true
      · rw [if_pos hp] at h ⊢
        simp only [Bool.and_eq_true, decide_eq_true_eq] at h ⊢
        obtain ⟨⟨hk', hc⟩, hs⟩ := h
        exact ⟨⟨lt_of_le_of_lt hkk hk', hc⟩,
          ih (k + 1) (k' + 1) (Nat.succ_le_succ hkk) hs⟩
      · rw [if_neg hp] at h ⊢
        exact h

theorem runNorm_append_left (p : Char → Bool) (canon : Char → Char) (cap : Nat) :
    ∀ (l1 l2 : List Char) (k : Nat),
      runNorm p canon cap k (l1 ++ l2) = true → runNorm p canon cap k l1 = true := by
  intro l1
  induction l1 with
  | nil => intro l2 k _; rfl
  | cons c l1 ih =>
      intro l2 k h
      rw [List.cons_append, runNorm] at h
      rw [runNorm]
      by_cases hp : p c = true
      · rw [if_pos hp] at h ⊢
        simp only [Bool.and_eq_true] at h ⊢
        exact ⟨h.1, ih l2 (k + 1) h.2⟩
      · rw [if_neg hp] at h ⊢
        exact ih l2 0 h

theorem runNorm_append_right (p : Char → Bool) (canon : Char → Char) (cap : Nat) :
    ∀ (l1 l2 : List Char) (k : Nat),
      runNorm p canon cap k (l1 ++ l2) = true → runNorm p canon cap 0 l2 = true := by
  intro l1
  induction l1 with
  | nil => intro l2 k h; exact runNorm_mono p canon cap l2 0 k (Nat.zero_le k) h
  | cons c l1 ih =>
      intro l2 k h
      rw [List.cons_append, runNorm] at h
      by_cases hp : p c = true
      · rw [if_pos hp] at h
        simp only [Bool.and_eq_true] at h
        exact ih l2 (k + 1) h.2
      · rw [if_neg hp] at h
        exact ih l2 0 h

/-- Normal forms are closed under contiguous sublists. -/
theorem runNorm_of_decomp (p : Char → Bool) (canon : Char → Char) (cap : Nat)
    {l t l1 l2 : List Char} (hl : l = l1 ++ (t ++ l2))
    (h : runNorm p canon cap 0 l = true) : runNorm p canon cap 0 t = true := by
  subst hl
  exact runNorm_append_left p canon cap t l2 0
    (runNorm_append_right p canon cap l1 (t ++ l2) 0 h)

/-- A machine over one character class preserves the normal form of a
disjoint class: it only drops characters of its own class and always keeps at
least one per run, so runs of the other class never grow or merge. -/
theorem runNorm_preserved (p : Char → Bool) (canon : Char → Char) (cap : Nat)
    (q : Char → Bool) (canq : Char → Char) (capq : Nat) (hcap : 0 < cap)
    (hdisj : ∀ c, p c = true → q c = false)
    (hcanon : ∀ c, p c = true → q (canon c) = false) :
    ∀ (s : List Char) (k k2 : Nat), (0 < k → k2 = 0) →
      runNorm q canq capq k2 s = true →
      runNorm q canq capq k2 (runGo p canon cap k s) = true := by
  intro s
  induction s with
  | nil => intro k k2 _ _; rfl
  | cons c s ih =>
      intro k k2 hk2 h
      rw [runNorm] at h
      rw [runGo]
      by_cases hp : p c = true
      · have hqc : ¬ (q c = true) := by simp [hdisj c hp]
        rw [if_pos hp]
        rw [if_neg hqc] at h
        by_cases hk : k < cap
        · rw [if_pos hk, runNorm, if_neg (show ¬ (q (canon c) = true) by
            simp [hcanon c hp])]
          exact ih (k + 1) 0 (fun _ => rfl) h
        · rw [if_neg hk]
          have hk20 : k2 = 0 := hk2 (lt_of_lt_of_le hcap (Nat.le_of_not_lt hk))
          subst hk20
          exact ih k 0 (fun _ => rfl) h
      · rw [if_neg hp, runNorm]
        by_cases hq : q c = true
        · rw [if_pos hq] at h ⊢
          simp only [Bool.and_eq_true] at h ⊢
          exact ⟨h.1, ih 0 (k2 + 1) (by omega) h.2⟩
        · rw [if_neg hq] at h ⊢
          exact ih 0 0 (fun _ => rfl) h

/-! ### Character-class facts -/

theorem dot_char_eq {c : Char} (hc : isDotChar c = true) : c = '.' := by
  simpa [isDotChar] using hc

theorem q_char_eq {c : Char} (hc : isQChar c = true) : c = '?' := by
  simpa [isQChar] using hc

theorem bang_char_eq {c : Char} (hc : isBangChar c = true) : c = '!' := by
  simpa [isBangChar] using hc

theorem ws_of_dot {c : Char} (hc : isDotChar c = true) : isWsChar c = false := by
  rw [dot_char_eq hc]; decide

theorem ws_of_q {c : Char} (hc : isQChar c = true) : isWsChar c = false := by
  rw [q_char_eq hc]; decide

theorem ws_of_bang {c : Char} (hc : isBangChar c = true) : isWsChar c = false := by
  rw [bang_char_eq hc]; decide

theorem dot_of_q {c : Char} (hc : isQChar c = true) : isDotChar c = false := by
  rw [q_char_eq hc]; decide

theorem dot_of_bang {c : Char} (hc : isBangChar c = true) : isDotChar c = false := by
  rw [bang_char_eq hc]; decide

theorem q_of_bang {c : Char} (hc : isBangChar c = true) : isQChar c = false := by
  rw [bang_char_eq hc]; decide

/-! ### Trim lemmas -/

theorem dropWhile_dropWhile_self {α : Type} (p : α → Bool) :
    ∀ l : List α, (l.dropWhile p).dropWhile p = l.dropWhile p := by
  intro l
  induction l with
  | nil => rfl
  | cons a l ih =>
      by_cases hp : p a = true
      · simp [List.dropWhile_cons, hp, ih]
      · simp [List.dropWhile_cons, hp]

theorem trimLeftChars_idem (l : List Char) :
    trimLeftChars (trimLeftChars l) = trimLeftChars l :=
  dropWhile_dropWhile_self isWsChar l

theorem trimRightChars_idem (l : List Char) :
    trimRightChars (trimRightChars l) = trimRightChars l := by
  unfold trimRightChars
  rw [List.reverse_reverse, dropWhile_dropWhile_self]

theorem dropWhile_append_of_nil {α : Type} (p : α → Bool) :
    ∀ l1 l2 : List α, l1.dropWhile p = [] →
      (l1 ++ l2).dropWhile p = l2.dropWhile p := by
  intro l1
  induction l1 with
  | nil => intro l2 _; rfl
  | cons a l1 ih =>
      intro l2 h
      rw [List.dropWhile_cons] at h
      by_cases hp : p a = true
      · rw [if_pos hp] at h
        rw [List.cons_append, List.dropWhile_cons, if_pos hp]
        exact ih l2 h
      · rw [if_neg hp] at h
        exact absurd h (by simp)

theorem dropWhile_append_of_ne_nil {α : Type} (p : α → Bool) :
    ∀ l1 l2 : List α, l1.dropWhile p ≠ [] →
      (l1 ++ l2).dropWhile p = l1.dropWhile p ++ l2 := by
  intro l1
  induction l1 with
  | nil => intro l2 h; exact absurd rfl h
  | cons a l1 ih =>
      intro l2 h
      rw [List.dropWhile_cons] at h
      by_cases hp : p a = true
      · rw [if_pos hp] at h
        rw [List.cons_append, List.dropWhile_cons, if_pos hp,
          List.dropWhile_cons, if_pos hp]
        exact ih l2 h
      · rw [List.cons_append, List.dropWhile_cons, if_neg hp,
          List.dropWhile_cons, if_neg hp, List.cons_append]

theorem trimLeftChars_cons_ws {c : Char} {l : List Char}
    (hc : isWsChar c = true) : trimLeftChars (c :: l) = trimLeftChars l := by
  show (c :: l).dropWhile isWsChar = l.dropWhile isWsChar
  rw [List.dropWhile_cons, if_pos hc]

theorem trimLeftChars_cons_nws {c : Char} {l : List Char}
    (hc : ¬ isWsChar c = true) : trimLeftChars (c :: l) = c :: l := by
  show (c :: l).dropWhile isWsChar = c :: l
  rw [List.dropWhile_cons, if_neg hc]

theorem trimRightChars_eq_nil {l : List Char}
    (h : ∀ x ∈ l, isWsChar x = true) : trimRightChars l = [] := by
  unfold trimRightChars
  have hnil : l.reverse.dropWhile isWsChar = [] :=
    List.dropWhile_eq_nil_iff.mpr (fun x hx => h x (List.mem_reverse.mp hx))
  rw [hnil]
  rfl

theorem trimRightChars_cons (c : Char) (l : List Char)
    (h : ¬ ∀ x ∈ c :: l, isWsChar x = true) :
    trimRightChars (c :: l) = c :: trimRightChars l := by
  unfold trimRightChars
  rw [List.reverse_cons]
  by_cases hall : ∀ x ∈ l, isWsChar x = true
  · have hc : ¬ isWsChar c = true := by
      intro hc
      apply h
      intro x hx
      rcases List.mem_cons.mp hx with rfl | hx
      · exact hc
      · exact hall x hx
    have hnil : l.reverse.dropWhile isWsChar = [] :=
      List.dropWhile_eq_nil_iff.mpr (fun x hx => hall x (List.mem_reverse.mp hx))
    rw [dropWhile_append_of_nil _ _ _ hnil, hnil]
    rw [List.dropWhile_cons, if_neg hc]
    rfl
  · have hne : l.reverse.dropWhile isWsChar ≠ [] := by
      rw [Ne, List.dropWhile_eq_nil_iff]
      intro hall2
      exact hall (fun x hx => hall2 x (List.mem_reverse.mpr hx))
    rw [dropWhile_append_of_ne_nil _ _ _ hne, List.reverse_append]
    rfl

theorem trimLR_comm : ∀ l : List Char,
    trimLeftChars (trimRightChars l) = trimRightChars (trimLeftChars l) := by
  intro l
  induction l with
  | nil => rfl
  | cons c l ih =>
      by_cases hc : isWsChar c = true
      · by_cases hall : ∀ x ∈ c :: l, isWsChar x = true
        · have hallL : ∀ x ∈ l, isWsChar x = true :=
            fun x hx => hall x (List.mem_cons_of_mem c hx)
          rw [trimRightChars_eq_nil hall, trimLeftChars_cons_ws hc]
          have h2 : trimLeftChars l = [] :=
            List.dropWhile_eq_nil_iff.mpr hallL
          rw [h2]
          rfl
        · rw [trimRightChars_cons c l hall, trimLeftChars_cons_ws hc,
            trimLeftChars_cons_ws hc, ih]
      · have hall : ¬ ∀ x ∈ c :: l, isWsChar x = true :=
          fun hall => hc (hall c (List.mem_cons_self c l))
        rw [trimLeftChars_cons_nws hc, trimRightChars_cons c l hall]
        rw [trimLeftChars_cons_nws hc]

theorem trimChars_idem (l : List Char) : trimChars (trimChars l) = trimChars l := by
  unfold trimChars
  rw [trimLR_comm, trimLeftChars_idem, trimRightChars_idem]

theorem trimRight_decomp (u : List Char) :
    u = trimRightChars u ++ (u.reverse.takeWhile isWsChar).reverse :=
  calc u = u.reverse.reverse := (List.reverse_reverse u).symm
    _ = (u.reverse.takeWhile isWsChar ++ u.reverse.dropWhile isWsChar).reverse := by
        rw [List.takeWhile_append_dropWhile]
    _ = (u.reverse.dropWhile isWsChar).reverse ++
          (u.reverse.takeWhile isWsChar).reverse := by
        rw [List.reverse_append]
    _ = trimRightChars u ++ (u.reverse.takeWhile isWsChar).reverse := rfl

/-- `trimChars l` is a contiguous sublist of `l`. -/
theorem trimChars_decomp (l : List Char) :
    ∃ l1 l2, l = l1 ++ (trimChars l ++ l2) := by
  refine ⟨l.takeWhile isWsChar,
    ((trimLeftChars l).reverse.takeWhile isWsChar).reverse, ?_⟩
  conv_lhs => rw [← List.takeWhile_append_dropWhile isWsChar l]
  congr 1
  exact trimRight_decomp (trimLeftChars l)

/-! ### C4 — cleanup idempotence -/

set_option maxRecDepth 8192 in
set_option maxHeartbeats 2000000 in
/-- C4 counterexample: `cleanText` is not idempotent.  Removing the boilerplate
phrase `Next →` from `"a Next → b"` splices the two spaces around it together
after whitespace has already been collapsed, so one pass returns `"a  b"` and
a second pass collapses the double space to `"a b"`. -/
theorem cleanText_not_idempotent_counterexample :
    cleanText "a Next → b" = "a  b" ∧
    cleanText (cleanText "a Next → b") = "a b" ∧
    cleanText (cleanText "a Next → b") ≠ cleanText "a Next → b" := by
  refine ⟨?_, ?_, ?_⟩ <;> decide

/-- C4 amended: `cleanText` is idempotent on every input on which the
boilerplate-phrase removals act as the identity — both on the
whitespace-collapsed input and on the once-cleaned output (phrase removal is
the one pass that can leave a double space or splice a new phrase together;
whitespace collapse, the punctuation collapses and the trim are re-applied
without effect).  In general `cleanText` is not idempotent. -/
theorem cleanText_idempotent_of_phrase_free (t : String)
    (hin : removePhrases (collapseWs t.data) = collapseWs t.data)
    (hout : removePhrases (cleanText t).data = (cleanText t).data) :
    cleanText (cleanText t) = cleanText t := by
  have hmk : cleanText t = (⟨trimChars (bangPass (qPass (dotsPass
      (removePhrases (collapseWs t.data)))))⟩ : String) := rfl
  have hdata : (cleanText t).data =
      trimChars (bangPass (qPass (dotsPass (collapseWs t.data)))) := by
    rw [hmk]
    simp only [hin]
  have hwsZ : runNorm isWsChar (fun _ => ' ') 1 0 (collapseWs t.data) = true :=
    runNorm_runGo isWsChar (fun _ => ' ') 1 (fun c _ => rfl)
      (fun c _ => rfl) t.data 0
  have hwsD : runNorm isWsChar (fun _ => ' ') 1 0
      (dotsPass (collapseWs t.data)) = true :=
    runNorm_preserved isDotChar id 3 isWsChar (fun _ => ' ') 1 (by omega)
      (fun c hc => ws_of_dot hc) (fun c hc => ws_of_dot hc)
      (collapseWs t.data) 0 0 (fun _ => rfl) hwsZ
  have hwsQ : runNorm isWsChar (fun _ => ' ') 1 0
      (qPass (dotsPass (collapseWs t.data))) = true :=
    runNorm_preserved isQChar id 1 isWsChar (fun _ => ' ') 1 (by omega)
      (fun c hc => ws_of_q hc) (fun c hc => ws_of_q hc)
      (dotsPass (collapseWs t.data)) 0 0 (fun _ => rfl) hwsD
  have hwsB : runNorm isWsChar (fun _ => ' ') 1 0
      (bangPass (qPass (dotsPass (collapseWs t.data)))) = true :=
    runNorm_preserved isBangChar id 1 isWsChar (fun _ => ' ') 1 (by omega)
      (fun c hc => ws_of_bang hc) (fun c hc => ws_of_bang hc)
      (qPass (dotsPass (collapseWs t.data))) 0 0 (fun _ => rfl) hwsQ
  have hwsY : runNorm isWsChar (fun _ => ' ') 1 0 (cleanText t).data = true := by
    obtain ⟨l1, l2, hdec⟩ := trimChars_decomp
      (bangPass (qPass (dotsPass (collapseWs t.data))))
    rw [hdata]
    exact runNorm_of_decomp _ _ _ hdec hwsB
  have hdD : runNorm isDotChar id 3 0 (dotsPass (collapseWs t.data)) = true :=
    runNorm_runGo isDotChar id 3 (fun c hc => hc) (fun c _ => rfl) _ 0
  have hdQ : runNorm isDotChar id 3 0
      (qPass (dotsPass (collapseWs t.data))) = true :=
    runNorm_preserved isQChar id 1 isDotChar id 3 (by omega)
      (fun c hc => dot_of_q hc) (fun c hc => dot_of_q hc)
      (dotsPass (collapseWs t.data)) 0 0 (fun _ => rfl) hdD
  have hdB : runNorm isDotChar id 3 0
      (bangPass (qPass (dotsPass (collapseWs t.data)))) = true :=
    runNorm_preserved isBangChar id 1 isDotChar id 3 (by omega)
      (fun c hc => dot_of_bang hc) (fun c hc => dot_of_bang hc)
      (qPass (dotsPass (collapseWs t.data))) 0 0 (fun _ => rfl) hdQ
  have hdY : runNorm isDotChar id 3 0 (cleanText t).data = true := by
    obtain ⟨l1, l2, hdec⟩ := trimChars_decomp
      (bangPass (qPass (dotsPass (collapseWs t.data))))
    rw [hdata]
    exact runNorm_of_decomp _ _ _ hdec hdB
  have hqQ : runNorm isQChar id 1 0
      (qPass (dotsPass (collapseWs t.data))) = true :=
    runNorm_runGo isQChar id 1 (fun c hc => hc) (fun c _ => rfl) _ 0
  have hqB : runNorm isQChar id 1 0
      (bangPass (qPass (dotsPass (collapseWs t.data)))) = true :=
    runNorm_preserved isBangChar id 1 isQChar id 1 (by omega)
      (fun c hc => q_of_bang hc) (fun c hc => q_of_bang hc)
      (qPass (dotsPass (collapseWs t.data))) 0 0 (fun _ => rfl) hqQ
  have hqY : runNorm isQChar id 1 0 (cleanText t).data = true := by
    obtain ⟨l1, l2, hdec⟩ := trimChars_decomp
      (bangPass (qPass (dotsPass (collapseWs t.data))))
    rw [hdata]
    exact runNorm_of_decomp _ _ _ hdec hqB
  have hbB : runNorm isBangChar id 1 0
      (bangPass (qPass (dotsPass (collapseWs t.data)))) = true :=
    runNorm_runGo isBangChar id 1 (fun c hc => hc) (fun c _ => rfl) _ 0
  have hbY : runNorm isBangChar id 1 0 (cleanText t).data = true := by
    obtain ⟨l1, l2, hdec⟩ := trimChars_decomp
      (bangPass (qPass (dotsPass (collapseWs t.data))))
    rw [hdata]
    exact runNorm_of_decomp _ _ _ hdec hbB
  have e1 : collapseWs (cleanText t).data = (cleanText t).data :=
    runGo_eq_self isWsChar (fun _ => ' ') 1 _ 0 hwsY
  have e3 : dotsPass (cleanText t).data = (cleanText t).data :=
    runGo_eq_self isDotChar id 3 _ 0 hdY
  have e4 : qPass (cleanText t).data = (cleanText t).data :=
    runGo_eq_self isQChar id 1 _ 0 hqY
  have e5 : bangPass (cleanText t).data = (cleanText t).data :=
    runGo_eq_self isBangChar id 1 _ 0 hbY
  have e6 : trimChars (cleanText t).data = (cleanText t).data := by
    rw [hdata]
    exact trimChars_idem _
  calc cleanText (cleanText t)
      = ⟨trimChars (bangPass (qPass (dotsPass (removePhrases
          (collapseWs (cleanText t).data)))))⟩ := rfl
    _ = ⟨(cleanText t).data⟩ := by rw [e1, hout, e3, e4, e5, e6]
    _ = cleanText t := by rw [hmk]

set_option maxRecDepth 8192 in
set_option maxHeartbeats 2000000 in
/-- Witness for the amended C4 at a concrete phrase-free input whose cleanup
exercises whitespace collapsing. -/
theorem cleanText_idempotent_witness :
    cleanText (cleanText "hello   world...") = cleanText "hello   world..." :=
  cleanText_idempotent_of_phrase_free "hello   world..." (by decide) (by decide)

end Mcp
